import Mathlib

/-!
# Verification of the squirrel-stats time-bucketed aggregation engine

Shallow embedding of the incremental aggregation core of the repository:

* `Command._process_site_hours` in
  `server/management/commands/aggregate_hourly_stats.py` and
  `Command._process_site_days` in
  `server/management/commands/aggregate_daily_stats.py` (line-for-line
  identical in the modelled portion, differing only in bucket width /
  boundaries, so both are embedded as one function `processBucketTx`
  parameterised by the bucket's half-open interval `[bStart, bEnd)`);
* `Command.handle` and `Command._group_consecutive_days` in
  `server/management/commands/queue_backfill_missing_days.py`;
* `Session.generate_session_id` in `server/models.py`.

Times are modelled as `Nat` (an abstract monotone clock, e.g. microseconds
since epoch); event/session/site identifiers are `Nat`.
-/

namespace SquirrelStats

/-- A raw pageview event (`PageView` in `server/models.py`), restricted to the
fields the aggregation engine reads: primary key, owning site, the
server-assigned `created_at` timestamp, and the nullable session reference. -/
structure PageView where
  id : Nat
  siteId : Nat
  created_at : Nat
  session : Option Nat
  deriving Repr, DecidableEq

/-- One `HourlyPageViewStats` / `DailyPageViewStats` row, restricted to the
fields the aggregation engine reads and writes: the two counters and the
watermark `last_processed_pageview_id`. -/
structure StatsRow where
  pageview_count : Nat
  unique_session_count : Nat
  last_processed_pageview_id : Option Nat
  deriving Repr, DecidableEq

/-- The zero-valued row used as `defaults` by `get_or_create`. -/
def emptyRow : StatsRow :=
  { pageview_count := 0, unique_session_count := 0, last_processed_pageview_id := none }

/-- The query `PageView.objects.filter(site=site, created_at__gte=bStart,
created_at__lt=bEnd)`: events of `site` whose timestamp lies in the half-open
bucket `[bStart, bEnd)`. -/
def eventsInBucket (site bStart bEnd : Nat) (evs : List PageView) : List PageView :=
  evs.filter fun e => e.siteId = site ∧ bStart ≤ e.created_at ∧ e.created_at < bEnd

/-- `PageView.objects.get(id=wid).created_at`: look up the watermark event by
primary key and read its timestamp; `none` models the `DoesNotExist`
exception. -/
def lookupCreatedAt (evs : List PageView) (wid : Nat) : Option Nat :=
  (evs.find? fun e => e.id = wid).map (·.created_at)

/-- The ordering behind `.order_by("created_at")`. -/
def createdLE (a b : PageView) : Prop := a.created_at ≤ b.created_at

instance : DecidableRel createdLE := fun a b => Nat.decLe a.created_at b.created_at

instance : IsTotal PageView createdLE := ⟨fun a b => Nat.le_total a.created_at b.created_at⟩

instance : IsTrans PageView createdLE := ⟨fun _ _ _ => Nat.le_trans⟩

/-- `.order_by("created_at")`: a stable sort of the selected events by their
timestamp. -/
def sortByCreated (l : List PageView) : List PageView := l.insertionSort createdLE

/-- The event list a run will fold into the bucket: the bucket query, further
restricted — when the row pre-exists (`created = false`) and carries a
watermark — to `created_at__gt` the watermark event's `created_at`, then
ordered by `created_at`.  `none` models the exception raised when the
watermark id cannot be looked up. -/
def selectedEvents (site bStart bEnd : Nat) (evs : List PageView)
    (existing : Option StatsRow) : Option (List PageView) :=
  match existing with
  | none => some (sortByCreated (eventsInBucket site bStart bEnd evs))
  | some row =>
    match row.last_processed_pageview_id with
    | none => some (sortByCreated (eventsInBucket site bStart bEnd evs))
    | some wid =>
      match lookupCreatedAt evs wid with
      | none => none
      | some wt => some (sortByCreated ((eventsInBucket site bStart bEnd evs).filter
          fun e => wt < e.created_at))

/-- Number of distinct non-null session references in a list of events: the
Python `set()` of `pv.session.id`, and likewise the
`.values_list("session", flat=True).distinct()` query. -/
def distinctSessionCount (l : List PageView) : Nat :=
  (l.filterMap (·.session)).dedup.length

/-- Result of one bucket iteration: the persisted row, whether the row was
freshly created, whether the iteration counted as an update, and how many
pageviews it processed. -/
structure RunOutcome where
  row : StatsRow
  wasCreated : Bool
  wasUpdated : Bool
  processed : Nat
  deriving Repr, DecidableEq

/-- One iteration of the `while current_hour <= end_hour` / `while
current_date <= end_date` loop body, inside `transaction.atomic()`:
`get_or_create` the row, select the not-yet-processed events, and fold them
in.  `existing` is the pre-existing row for `(site, bucket)` if any; `none`
as result models an exception inside the transaction (rolled back and caught
by the surrounding `except`). -/
def processBucketTx (site bStart bEnd : Nat) (evs : List PageView)
    (existing : Option StatsRow) : Option RunOutcome :=
  let row := existing.getD emptyRow
  let created := existing.isNone
  match selectedEvents site bStart bEnd evs existing with
  | none => none
  | some pageviews =>
    if h : pageviews = [] then
      some { row := row, wasCreated := created, wasUpdated := false, processed := 0 }
    else
      let n := pageviews.length
      let sessionIds := (pageviews.filterMap (·.session)).dedup
      let lastId := (pageviews.getLast h).id
      let row' : StatsRow :=
        if created then
          { pageview_count := n
            unique_session_count := sessionIds.length
            last_processed_pageview_id := some lastId }
        else
          { pageview_count := row.pageview_count + n
            unique_session_count := distinctSessionCount (eventsInBucket site bStart bEnd evs)
            last_processed_pageview_id := some lastId }
      some { row := row', wasCreated := created, wasUpdated := !created, processed := n }

/-! ### Basic lemmas about the embedded operations -/

lemma pairwise_le_getLast :
    ∀ (l : List PageView), l.Pairwise createdLE →
      ∀ (h : l ≠ []), ∀ e ∈ l, e.created_at ≤ (l.getLast h).created_at := by
  intro l
  induction l with
  | nil => intro _ h; exact absurd rfl h
  | cons a t ih =>
    intro hp h e he
    cases t with
    | nil =>
      rcases List.mem_cons.mp he with rfl | h2
      · simp [List.getLast]
      · cases h2
    | cons b t' =>
      rw [List.getLast_cons_cons]
      rcases List.mem_cons.mp he with rfl | h2
      · have hm : (b :: t').getLast (by simp) ∈ b :: t' := List.getLast_mem _
        exact (List.pairwise_cons.mp hp).1 _ hm
      · exact ih (List.pairwise_cons.mp hp).2 (by simp) e h2

lemma mem_sortByCreated {l : List PageView} {e : PageView} :
    e ∈ sortByCreated l ↔ e ∈ l := List.mem_insertionSort createdLE

lemma le_getLast_sort (l : List PageView) (h : sortByCreated l ≠ []) :
    ∀ e ∈ l, e.created_at ≤ ((sortByCreated l).getLast h).created_at := by
  intro e he
  exact pairwise_le_getLast _ (List.sorted_insertionSort createdLE l) h e
    (mem_sortByCreated.mpr he)

lemma sortByCreated_perm (l : List PageView) : (sortByCreated l).Perm l :=
  List.perm_insertionSort createdLE l

lemma sortByCreated_eq_nil {l : List PageView} (h : sortByCreated l = []) : l = [] := by
  have hp := sortByCreated_perm l
  rw [h] at hp
  exact hp.symm.eq_nil

lemma mem_eventsInBucket {site bStart bEnd : Nat} {evs : List PageView} {e : PageView} :
    e ∈ eventsInBucket site bStart bEnd evs ↔
      e ∈ evs ∧ e.siteId = site ∧ bStart ≤ e.created_at ∧ e.created_at < bEnd := by
  simp only [eventsInBucket, List.mem_filter, decide_eq_true_eq]

lemma lookupCreatedAt_of_mem :
    ∀ {evs : List PageView}, (evs.map PageView.id).Nodup →
      ∀ {e : PageView}, e ∈ evs → lookupCreatedAt evs e.id = some e.created_at := by
  intro evs
  induction evs with
  | nil => intro _ e he; cases he
  | cons a t ih =>
    intro hnd e he
    simp only [List.map_cons, List.nodup_cons] at hnd
    rcases List.mem_cons.mp he with rfl | het
    · simp [lookupCreatedAt, List.find?_cons_of_pos]
    · have hne : ¬(a.id = e.id) := by
        intro hcontra
        apply hnd.1
        rw [hcontra]
        exact List.mem_map_of_mem PageView.id het
      rw [lookupCreatedAt, List.find?_cons_of_neg _ (by simpa using hne)]
      simpa [lookupCreatedAt] using ih hnd.2 het

/-- If the current row's watermark resolves to a timestamp `wt` that bounds
every event in the bucket, the next run selects nothing. -/
lemma selectedEvents_of_max (site bStart bEnd : Nat) (evs : List PageView) (row : StatsRow)
    (wid wt : Nat) (hw : row.last_processed_pageview_id = some wid)
    (hl : lookupCreatedAt evs wid = some wt)
    (hmax : ∀ e ∈ eventsInBucket site bStart bEnd evs, e.created_at ≤ wt) :
    selectedEvents site bStart bEnd evs (some row) = some [] := by
  simp only [selectedEvents, hw, hl]
  have hnil : (eventsInBucket site bStart bEnd evs).filter (fun e => wt < e.created_at) = [] := by
    rw [List.filter_eq_nil_iff]
    intro e he
    simp only [decide_eq_true_eq, not_lt]
    exact hmax e he
  rw [hnil]
  rfl

/-- After any successful bucket run, a rerun on the same event set selects no
events (the watermark already bounds everything in the bucket). -/
lemma selectedEvents_after_run (site bStart bEnd : Nat) (evs : List PageView)
    (st : Option StatsRow) (o : RunOutcome)
    (hnd : (evs.map PageView.id).Nodup)
    (h1 : processBucketTx site bStart bEnd evs st = some o) :
    selectedEvents site bStart bEnd evs (some o.row) = some [] := by
  cases hsel : selectedEvents site bStart bEnd evs st with
  | none => simp [processBucketTx, hsel] at h1
  | some pvs =>
    simp only [processBucketTx, hsel] at h1
    by_cases hp : pvs = []
    · rw [dif_pos hp] at h1
      injection h1 with h1
      cases st with
      | none =>
        rw [← h1]
        simp only [selectedEvents, Option.getD_none, emptyRow]
        simp only [selectedEvents] at hsel
        injection hsel with hsel
        rw [hsel, hp]
      | some r =>
        rw [← h1]
        simpa using hsel.trans (by rw [hp])
    · rw [dif_neg hp] at h1
      injection h1 with h1
      have hwm : o.row.last_processed_pageview_id = some ((pvs.getLast hp).id) := by
        rw [← h1]
        cases st <;> simp
      have hkey : (pvs.getLast hp) ∈ evs ∧
          ∀ e ∈ eventsInBucket site bStart bEnd evs,
            e.created_at ≤ (pvs.getLast hp).created_at := by
        cases st with
        | none =>
          simp only [selectedEvents] at hsel
          injection hsel with hsel
          subst hsel
          refine ⟨(mem_eventsInBucket.mp (mem_sortByCreated.mp (List.getLast_mem hp))).1, ?_⟩
          exact le_getLast_sort _ hp
        | some r =>
          cases hw : r.last_processed_pageview_id with
          | none =>
            simp only [selectedEvents, hw] at hsel
            injection hsel with hsel
            subst hsel
            refine ⟨(mem_eventsInBucket.mp (mem_sortByCreated.mp (List.getLast_mem hp))).1, ?_⟩
            exact le_getLast_sort _ hp
          | some wid =>
            cases hl : lookupCreatedAt evs wid with
            | none => simp [selectedEvents, hw, hl] at hsel
            | some wt =>
              simp only [selectedEvents, hw, hl] at hsel
              injection hsel with hsel
              subst hsel
              have hLfilter := mem_sortByCreated.mp (List.getLast_mem hp)
              have hLwt : wt < ((sortByCreated ((eventsInBucket site bStart bEnd evs).filter
                  fun e => wt < e.created_at)).getLast hp).created_at := by
                have := (List.mem_filter.mp hLfilter).2
                simpa using this
              refine ⟨(mem_eventsInBucket.mp (List.mem_filter.mp hLfilter).1).1, ?_⟩
              intro e he
              by_cases hewt : wt < e.created_at
              · exact le_getLast_sort _ hp e
                  (List.mem_filter.mpr ⟨he, by simpa using hewt⟩)
              · omega
      exact selectedEvents_of_max site bStart bEnd evs o.row _ _ hwm
        (lookupCreatedAt_of_mem hnd hkey.1) hkey.2

/-- C1: for every site, bucket and granularity (the hourly and daily loop
bodies are both instances of `processBucketTx`), with a fixed event set,
running the aggregation a second time right after a successful run leaves the
persisted row — in particular `pageview_count` and `unique_session_count` —
exactly as the first run left it (and processes zero events). -/
theorem aggregate_twice_idempotent (site bStart bEnd : Nat) (evs : List PageView)
    (st : Option StatsRow) (o : RunOutcome)
    (hnd : (evs.map PageView.id).Nodup)
    (h1 : processBucketTx site bStart bEnd evs st = some o) :
    processBucketTx site bStart bEnd evs (some o.row) =
      some { row := o.row, wasCreated := false, wasUpdated := false, processed := 0 } := by
  have hsel := selectedEvents_after_run site bStart bEnd evs st o hnd h1
  simp [processBucketTx, hsel]

/-- Witness for C1 on the spec's §8 scenario (3 events, two sessions, one
hour bucket): the hypotheses are satisfiable and the rerun changes nothing. -/
theorem aggregate_twice_idempotent_witness :
    processBucketTx 7 0 3600
      [⟨1, 7, 300, some 10⟩, ⟨2, 7, 1200, some 10⟩, ⟨3, 7, 3000, some 11⟩]
      (some { pageview_count := 3, unique_session_count := 2,
              last_processed_pageview_id := some 3 }) =
      some { row := { pageview_count := 3, unique_session_count := 2,
                      last_processed_pageview_id := some 3 },
             wasCreated := false, wasUpdated := false, processed := 0 } :=
  aggregate_twice_idempotent 7 0 3600
    [⟨1, 7, 300, some 10⟩, ⟨2, 7, 1200, some 10⟩, ⟨3, 7, 3000, some 11⟩]
    none
    { row := { pageview_count := 3, unique_session_count := 2,
               last_processed_pageview_id := some 3 },
      wasCreated := true, wasUpdated := false, processed := 3 }
    (by decide) (by decide)

/-! ### The aggregation invariant

After any number of runs over a growing event store, a bucket's row counts
exactly the bucket's events, its unique-session counter is the distinct count
of non-null session references, and its watermark points at a bucket event of
maximal timestamp (or is `none` when the bucket has never had events). -/

/-- The watermark part of the invariant. -/
def WatermarkInv (site bStart bEnd : Nat) (evs : List PageView) (row : StatsRow) : Prop :=
  (row.last_processed_pageview_id = none ∧ eventsInBucket site bStart bEnd evs = []) ∨
  (∃ e ∈ eventsInBucket site bStart bEnd evs,
      row.last_processed_pageview_id = some e.id ∧
      ∀ e2 ∈ eventsInBucket site bStart bEnd evs, e2.created_at ≤ e.created_at)

/-- Full per-bucket invariant relating a persisted row to the event store. -/
structure AggInv (site bStart bEnd : Nat) (evs : List PageView) (row : StatsRow) : Prop where
  pc : row.pageview_count = (eventsInBucket site bStart bEnd evs).length
  usc : row.unique_session_count = distinctSessionCount (eventsInBucket site bStart bEnd evs)
  wm : WatermarkInv site bStart bEnd evs row

lemma distinctSessionCount_perm {l l' : List PageView} (h : l.Perm l') :
    distinctSessionCount l = distinctSessionCount l' :=
  ((h.filterMap _).dedup).length_eq

lemma eventsInBucket_append (site bStart bEnd : Nat) (l1 l2 : List PageView) :
    eventsInBucket site bStart bEnd (l1 ++ l2) =
      eventsInBucket site bStart bEnd l1 ++ eventsInBucket site bStart bEnd l2 :=
  List.filter_append _ _

/-- A first run (no pre-existing row) creates a row counting exactly the
bucket's events and establishes the invariant. -/
lemma processBucketTx_base (site bStart bEnd : Nat) (evs : List PageView) :
    ∃ row : StatsRow,
      processBucketTx site bStart bEnd evs none =
        some { row := row, wasCreated := true, wasUpdated := false,
               processed := (eventsInBucket site bStart bEnd evs).length } ∧
      AggInv site bStart bEnd evs row := by
  simp only [processBucketTx, selectedEvents, Option.getD_none, Option.isNone_none]
  by_cases hp : sortByCreated (eventsInBucket site bStart bEnd evs) = []
  · have hB : eventsInBucket site bStart bEnd evs = [] := sortByCreated_eq_nil hp
    refine ⟨emptyRow, ?_, ?_⟩
    · rw [dif_pos hp, hB]
      rfl
    · exact ⟨by simp [emptyRow, hB], by simp [emptyRow, hB, distinctSessionCount],
        Or.inl ⟨rfl, hB⟩⟩
  · rw [dif_neg hp]
    have hperm := sortByCreated_perm (eventsInBucket site bStart bEnd evs)
    refine ⟨{ pageview_count := (sortByCreated (eventsInBucket site bStart bEnd evs)).length,
              unique_session_count :=
                ((sortByCreated (eventsInBucket site bStart bEnd evs)).filterMap
                  (·.session)).dedup.length,
              last_processed_pageview_id :=
                some ((sortByCreated (eventsInBucket site bStart bEnd evs)).getLast hp).id },
        ?_, ?_⟩
    · simp [hperm.length_eq]
    · constructor
      · exact hperm.length_eq
      · exact distinctSessionCount_perm hperm
      · refine Or.inr ⟨(sortByCreated (eventsInBucket site bStart bEnd evs)).getLast hp,
          mem_sortByCreated.mp (List.getLast_mem hp), rfl, ?_⟩
        exact le_getLast_sort _ hp

/-- A later run over the old events plus a batch of strictly newer events
folds in exactly the new bucket events and preserves the invariant. -/
lemma processBucketTx_step (site bStart bEnd : Nat) (evs new : List PageView) (row : StatsRow)
    (hnd : ((evs ++ new).map PageView.id).Nodup)
    (hmono : ∀ eN ∈ new, ∀ eO ∈ evs, eO.created_at < eN.created_at)
    (hinv : AggInv site bStart bEnd evs row) :
    ∃ row' : StatsRow,
      processBucketTx site bStart bEnd (evs ++ new) (some row) =
        some { row := row', wasCreated := false,
               wasUpdated := !(eventsInBucket site bStart bEnd new).isEmpty,
               processed := (eventsInBucket site bStart bEnd new).length } ∧
      AggInv site bStart bEnd (evs ++ new) row' := by
  have hBapp := eventsInBucket_append site bStart bEnd evs new
  rcases hinv.wm with ⟨hwnone, hBnil⟩ | ⟨ew, hewB, hwid, hmax⟩
  · -- never-seen bucket: no watermark, no filter
    have hsel : selectedEvents site bStart bEnd (evs ++ new) (some row) =
        some (sortByCreated (eventsInBucket site bStart bEnd new)) := by
      simp only [selectedEvents, hwnone, hBapp, hBnil, List.nil_append]
    simp only [processBucketTx, hsel, Option.getD_some, Option.isNone_some]
    by_cases hp : sortByCreated (eventsInBucket site bStart bEnd new) = []
    · have hBn : eventsInBucket site bStart bEnd new = [] := sortByCreated_eq_nil hp
      have hB2 : eventsInBucket site bStart bEnd (evs ++ new) = [] := by
        rw [hBapp, hBnil, hBn]
        rfl
      refine ⟨row, ?_, ?_⟩
      · rw [dif_pos hp, hBn]
        rfl
      · refine ⟨?_, ?_, Or.inl ⟨hwnone, hB2⟩⟩
        · rw [hB2, hinv.pc, hBnil]
        · rw [hB2, hinv.usc, hBnil]
    · rw [dif_neg hp]
      have hperm := sortByCreated_perm (eventsInBucket site bStart bEnd new)
      have hBn_ne : eventsInBucket site bStart bEnd new ≠ [] :=
        fun h => hp (by rw [h]; rfl)
      refine ⟨{ pageview_count :=
                  row.pageview_count + (sortByCreated (eventsInBucket site bStart bEnd new)).length,
                unique_session_count :=
                  distinctSessionCount (eventsInBucket site bStart bEnd (evs ++ new)),
                last_processed_pageview_id :=
                  some ((sortByCreated (eventsInBucket site bStart bEnd new)).getLast hp).id },
          ?_, ?_⟩
      · simp [hperm.length_eq, List.isEmpty_iff, hBn_ne]
      · constructor
        · have hrow0 : row.pageview_count = 0 := by rw [hinv.pc, hBnil]; rfl
          dsimp only
          rw [hrow0, hperm.length_eq, hBapp, hBnil, List.nil_append]
          omega
        · rfl
        · refine Or.inr ⟨(sortByCreated (eventsInBucket site bStart bEnd new)).getLast hp,
            ?_, rfl, ?_⟩
          · rw [hBapp, hBnil, List.nil_append]
            exact mem_sortByCreated.mp (List.getLast_mem hp)
          · intro e2 he2
            rw [hBapp, hBnil, List.nil_append] at he2
            exact le_getLast_sort _ hp e2 he2
  · -- watermark present: the filter keeps exactly the new bucket events
    have hew_evs : ew ∈ evs := (mem_eventsInBucket.mp hewB).1
    have hlook : lookupCreatedAt (evs ++ new) ew.id = some ew.created_at :=
      lookupCreatedAt_of_mem hnd (List.mem_append_left _ hew_evs)
    have hfilter : (eventsInBucket site bStart bEnd (evs ++ new)).filter
        (fun e => ew.created_at < e.created_at) = eventsInBucket site bStart bEnd new := by
      rw [hBapp, List.filter_append]
      have h1 : (eventsInBucket site bStart bEnd evs).filter
          (fun e => ew.created_at < e.created_at) = [] := by
        rw [List.filter_eq_nil_iff]
        intro e he
        simp only [decide_eq_true_eq, not_lt]
        exact hmax e he
      have h2 : (eventsInBucket site bStart bEnd new).filter
          (fun e => ew.created_at < e.created_at) = eventsInBucket site bStart bEnd new := by
        rw [List.filter_eq_self]
        intro e he
        simp only [decide_eq_true_eq]
        exact hmono e (mem_eventsInBucket.mp he).1 ew hew_evs
      rw [h1, h2, List.nil_append]
    have hsel : selectedEvents site bStart bEnd (evs ++ new) (some row) =
        some (sortByCreated (eventsInBucket site bStart bEnd new)) := by
      simp only [selectedEvents, hwid, hlook, hfilter]
    simp only [processBucketTx, hsel, Option.getD_some, Option.isNone_some]
    by_cases hp : sortByCreated (eventsInBucket site bStart bEnd new) = []
    · have hBn : eventsInBucket site bStart bEnd new = [] := sortByCreated_eq_nil hp
      refine ⟨row, ?_, ?_⟩
      · rw [dif_pos hp, hBn]
        rfl
      · refine ⟨?_, ?_, Or.inr ⟨ew, ?_, hwid, ?_⟩⟩
        · rw [hBapp, hBn, List.append_nil]; exact hinv.pc
        · rw [hBapp, hBn, List.append_nil]; exact hinv.usc
        · rw [hBapp, hBn, List.append_nil]; exact hewB
        · intro e2 he2
          rw [hBapp, hBn, List.append_nil] at he2
          exact hmax e2 he2
    · rw [dif_neg hp]
      have hperm := sortByCreated_perm (eventsInBucket site bStart bEnd new)
      have hBn_ne : eventsInBucket site bStart bEnd new ≠ [] :=
        fun h => hp (by rw [h]; rfl)
      have hL_new : (sortByCreated (eventsInBucket site bStart bEnd new)).getLast hp ∈
          eventsInBucket site bStart bEnd new := mem_sortByCreated.mp (List.getLast_mem hp)
      refine ⟨{ pageview_count :=
                  row.pageview_count + (sortByCreated (eventsInBucket site bStart bEnd new)).length,
                unique_session_count :=
                  distinctSessionCount (eventsInBucket site bStart bEnd (evs ++ new)),
                last_processed_pageview_id :=
                  some ((sortByCreated (eventsInBucket site bStart bEnd new)).getLast hp).id },
          ?_, ?_⟩
      · simp [hperm.length_eq, List.isEmpty_iff, hBn_ne]
      · constructor
        · dsimp only
          rw [hinv.pc, hperm.length_eq, hBapp, List.length_append]
        · rfl
        · refine Or.inr ⟨(sortByCreated (eventsInBucket site bStart bEnd new)).getLast hp,
            ?_, rfl, ?_⟩
          · rw [hBapp]
            exact List.mem_append_right _ hL_new
          · intro e2 he2
            rw [hBapp] at he2
            rcases List.mem_append.mp he2 with h2 | h2
            · have hlt : ew.created_at <
                  ((sortByCreated (eventsInBucket site bStart bEnd new)).getLast hp).created_at :=
                hmono _ (mem_eventsInBucket.mp hL_new).1 ew hew_evs
              exact le_of_lt (lt_of_le_of_lt (hmax e2 h2) hlt)
            · exact le_getLast_sort _ hp e2 h2

/-- C2: with a fresh bucket, a first run over events `E1` and a second run
after strictly newer events `new` were inserted count each event exactly
once: `pageview_count` after run 2 equals the number of events of
`E1 ∪ new` that fall in the bucket. -/
theorem incremental_no_double_count (site bStart bEnd : Nat)
    (evs1 new : List PageView) (o1 o2 : RunOutcome)
    (hnd : ((evs1 ++ new).map PageView.id).Nodup)
    (hmono : ∀ eN ∈ new, ∀ eO ∈ evs1, eO.created_at < eN.created_at)
    (h1 : processBucketTx site bStart bEnd evs1 none = some o1)
    (h2 : processBucketTx site bStart bEnd (evs1 ++ new) (some o1.row) = some o2) :
    o2.row.pageview_count = (eventsInBucket site bStart bEnd (evs1 ++ new)).length ∧
    o2.processed = (eventsInBucket site bStart bEnd new).length := by
  obtain ⟨row1, hrun1, hinv1⟩ := processBucketTx_base site bStart bEnd evs1
  rw [h1] at hrun1
  injection hrun1 with hrun1
  have ho1row : o1.row = row1 := by rw [hrun1]
  obtain ⟨row2, hrun2, hinv2⟩ :=
    processBucketTx_step site bStart bEnd evs1 new row1 hnd hmono hinv1
  rw [ho1row, hrun2] at h2
  injection h2 with h2
  rw [← h2]
  exact ⟨hinv2.pc, rfl⟩

/-- Witness for C2: 2 events before run 1, 2 newer events (one outside the
bucket) before run 2; the bucket ends with 3 counted pageviews, not 2+2+… -/
theorem incremental_no_double_count_witness :
    ((([⟨1, 7, 100, some 10⟩, ⟨2, 7, 200, none⟩] : List PageView) ++
        ([⟨3, 7, 300, some 11⟩, ⟨4, 7, 5000, none⟩] : List PageView)).map PageView.id).Nodup ∧
    (eventsInBucket 7 0 3600
        (([⟨1, 7, 100, some 10⟩, ⟨2, 7, 200, none⟩] : List PageView) ++
          ([⟨3, 7, 300, some 11⟩, ⟨4, 7, 5000, none⟩] : List PageView))).length = 3 := by
  refine ⟨by decide, ?_⟩
  have h := incremental_no_double_count 7 0 3600
    [⟨1, 7, 100, some 10⟩, ⟨2, 7, 200, none⟩]
    [⟨3, 7, 300, some 11⟩, ⟨4, 7, 5000, none⟩]
    { row := { pageview_count := 2, unique_session_count := 1,
               last_processed_pageview_id := some 2 },
      wasCreated := true, wasUpdated := false, processed := 2 }
    { row := { pageview_count := 3, unique_session_count := 2,
               last_processed_pageview_id := some 3 },
      wasCreated := false, wasUpdated := true, processed := 1 }
    (by decide) (by decide) (by decide) (by decide)
  calc (eventsInBucket 7 0 3600
      (([⟨1, 7, 100, some 10⟩, ⟨2, 7, 200, none⟩] : List PageView) ++
        ([⟨3, 7, 300, some 11⟩, ⟨4, 7, 5000, none⟩] : List PageView))).length
      = ({ pageview_count := 3, unique_session_count := 2,
           last_processed_pageview_id := some 3 : StatsRow }).pageview_count := h.1.symm
    _ = 3 := by decide

/-! ### Sequences of aggregation runs -/

/-- A sequence of aggregation runs over a growing event store: each entry of
`batches` is the list of events inserted since the previous run; one run is
executed after each batch.  Returns the final event store and row state. -/
def runSeq (site bStart bEnd : Nat) :
    List PageView → Option StatsRow → List (List PageView) →
      Option (List PageView × Option StatsRow)
  | evs, st, [] => some (evs, st)
  | evs, st, batch :: rest =>
    match processBucketTx site bStart bEnd (evs ++ batch) st with
    | none => none
    | some o => runSeq site bStart bEnd (evs ++ batch) (some o.row) rest

/-- Batches of freshly inserted events: each event is strictly newer than all
events already in the store and than all events of earlier batches (the
`created_at` column is server-assigned at insertion time, so later inserts
carry later timestamps). -/
def FreshBatches (evs : List PageView) (batches : List (List PageView)) : Prop :=
  (∀ b ∈ batches, ∀ eN ∈ b, ∀ eO ∈ evs, eO.created_at < eN.created_at) ∧
  batches.Pairwise (fun b1 b2 => ∀ e2 ∈ b2, ∀ e1 ∈ b1, e1.created_at < e2.created_at)

/-- The per-bucket invariant is preserved by any sequence of runs over
freshly inserted batches. -/
lemma runSeq_inv (site bStart bEnd : Nat) :
    ∀ (batches : List (List PageView)) (evs : List PageView) (row : StatsRow),
      ((evs ++ batches.flatten).map PageView.id).Nodup →
      FreshBatches evs batches →
      AggInv site bStart bEnd evs row →
      ∃ rowF : StatsRow,
        runSeq site bStart bEnd evs (some row) batches =
          some (evs ++ batches.flatten, some rowF) ∧
        AggInv site bStart bEnd (evs ++ batches.flatten) rowF := by
  intro batches
  induction batches with
  | nil =>
    intro evs row hnd _ hinv
    exact ⟨row, by simp [runSeq], by simpa using hinv⟩
  | cons batch rest ih =>
    intro evs row hnd hf hinv
    have hassoc : evs ++ (batch :: rest).flatten = (evs ++ batch) ++ rest.flatten := by
      rw [List.flatten_cons, List.append_assoc]
    have hnd1 : ((evs ++ batch).map PageView.id).Nodup := by
      apply List.Nodup.sublist (List.Sublist.map PageView.id ?_) hnd
      rw [hassoc]
      exact List.sublist_append_left _ _
    obtain ⟨row1, hrun, hinv1⟩ :=
      processBucketTx_step site bStart bEnd evs batch row hnd1
        (hf.1 batch (List.mem_cons_self _ _)) hinv
    have hfr : FreshBatches (evs ++ batch) rest := by
      constructor
      · intro b hb eN heN eO heO
        rcases List.mem_append.mp heO with h | h
        · exact hf.1 b (List.mem_cons_of_mem _ hb) eN heN eO h
        · exact (List.pairwise_cons.mp hf.2).1 b hb eN heN eO h
      · exact (List.pairwise_cons.mp hf.2).2
    have hnd2 : (((evs ++ batch) ++ rest.flatten).map PageView.id).Nodup := by
      rw [← hassoc]
      exact hnd
    obtain ⟨rowF, hF, hinvF⟩ := ih (evs ++ batch) row1 hnd2 hfr hinv1
    refine ⟨rowF, ?_, ?_⟩
    · simp only [runSeq, hrun]
      rw [hassoc]
      exact hF
    · rw [hassoc]
      exact hinvF

/-- C3: after any sequence of aggregation runs over a growing event store,
the bucket's `unique_session_count` equals the number of distinct non-null
session references among ALL events in the bucket (so two same-session
events discovered in two different runs contribute exactly 1), and
`pageview_count` counts every bucket event exactly once. -/
theorem unique_sessions_recomputed (site bStart bEnd : Nat)
    (batches : List (List PageView)) (hne : batches ≠ [])
    (hnd : (batches.flatten.map PageView.id).Nodup)
    (hf : FreshBatches [] batches) :
    ∃ rowF : StatsRow,
      runSeq site bStart bEnd [] none batches = some (batches.flatten, some rowF) ∧
      rowF.unique_session_count =
        distinctSessionCount (eventsInBucket site bStart bEnd batches.flatten) ∧
      rowF.pageview_count = (eventsInBucket site bStart bEnd batches.flatten).length := by
  cases batches with
  | nil => exact absurd rfl hne
  | cons batch rest =>
    obtain ⟨row1, hrun1, hinv1⟩ := processBucketTx_base site bStart bEnd batch
    have hfr : FreshBatches batch rest := by
      constructor
      · intro b hb eN heN eO heO
        exact (List.pairwise_cons.mp hf.2).1 b hb eN heN eO heO
      · exact (List.pairwise_cons.mp hf.2).2
    have hnd2 : ((batch ++ rest.flatten).map PageView.id).Nodup := by
      simpa [List.flatten_cons] using hnd
    obtain ⟨rowF, hF, hinvF⟩ := runSeq_inv site bStart bEnd rest batch row1 hnd2 hfr hinv1
    have hflat : (batch :: rest).flatten = batch ++ rest.flatten := List.flatten_cons
    refine ⟨rowF, ?_, ?_, ?_⟩
    · simp only [runSeq, List.nil_append, hrun1, hflat]
      exact hF
    · rw [hflat]
      exact hinvF.usc
    · rw [hflat]
      exact hinvF.pc

/-- Witness for C3: two events with the same session key, arriving in two
separate runs, yield `unique_session_count` accounting them as one distinct
session. -/
theorem unique_sessions_recomputed_witness :
    distinctSessionCount (eventsInBucket 0 0 100
      ([[⟨1, 0, 10, some 5⟩], [⟨2, 0, 20, some 5⟩]] : List (List PageView)).flatten) = 1 ∧
    (∃ rowF : StatsRow,
      runSeq 0 0 100 [] none [[⟨1, 0, 10, some 5⟩], [⟨2, 0, 20, some 5⟩]] =
        some (([[⟨1, 0, 10, some 5⟩], [⟨2, 0, 20, some 5⟩]] : List (List PageView)).flatten,
          some rowF) ∧
      rowF.unique_session_count = distinctSessionCount (eventsInBucket 0 0 100
        ([[⟨1, 0, 10, some 5⟩], [⟨2, 0, 20, some 5⟩]] : List (List PageView)).flatten) ∧
      rowF.pageview_count = (eventsInBucket 0 0 100
        ([[⟨1, 0, 10, some 5⟩], [⟨2, 0, 20, some 5⟩]] : List (List PageView)).flatten).length) :=
  ⟨by decide,
    unique_sessions_recomputed 0 0 100 [[⟨1, 0, 10, some 5⟩], [⟨2, 0, 20, some 5⟩]]
      (by decide) (by decide) (by simp [FreshBatches])⟩

/-! ### Watermark strictness across later runs -/

/-- States (event store, bucket row) reachable from a given state by later
aggregation runs over this bucket: the event store is append-only (events are
only added at the end), ids stay unique, and each run must succeed. -/
inductive Reachable (site bStart bEnd : Nat) (evs0 : List PageView) (row0 : StatsRow) :
    List PageView → StatsRow → Prop
  | refl : Reachable site bStart bEnd evs0 row0 evs0 row0
  | step {evs : List PageView} {row : StatsRow} {evs' : List PageView} {o : RunOutcome} :
      Reachable site bStart bEnd evs0 row0 evs row →
      evs <+: evs' →
      (evs'.map PageView.id).Nodup →
      processBucketTx site bStart bEnd evs' (some row) = some o →
      Reachable site bStart bEnd evs0 row0 evs' o.row

/-- Primary-key lookup is stable when the store is only appended to. -/
lemma lookupCreatedAt_prefix {evs evs' : List PageView} (hpre : evs <+: evs')
    {wid wt : Nat} (h : lookupCreatedAt evs wid = some wt) :
    lookupCreatedAt evs' wid = some wt := by
  obtain ⟨tail, rfl⟩ := hpre
  unfold lookupCreatedAt at h ⊢
  rw [List.find?_append]
  cases hf : evs.find? (fun e => e.id = wid) with
  | none => rw [hf] at h; simp at h
  | some e =>
    rw [hf] at h
    simpa [Option.or] using h

/-- Watermark timestamps never decrease across runs: every reachable row
keeps a watermark, resolvable in the current store, at least as late as the
starting watermark's timestamp. -/
lemma reachable_watermark_mono (site bStart bEnd : Nat)
    (evs0 : List PageView) (row0 : StatsRow) (wid0 wt0 : Nat)
    (h0 : row0.last_processed_pageview_id = some wid0)
    (hl0 : lookupCreatedAt evs0 wid0 = some wt0) :
    ∀ evs row, Reachable site bStart bEnd evs0 row0 evs row →
      ∃ wid wt, row.last_processed_pageview_id = some wid ∧
        lookupCreatedAt evs wid = some wt ∧ wt0 ≤ wt := by
  intro evs row hr
  induction hr with
  | refl => exact ⟨wid0, wt0, h0, hl0, Nat.le_refl _⟩
  | @step evs1 row1 evs' o hr1 hpre hnd hrun ih =>
    obtain ⟨wid, wt, hwid, hlook, hle⟩ := ih
    have hlook' : lookupCreatedAt evs' wid = some wt := lookupCreatedAt_prefix hpre hlook
    have hsel : selectedEvents site bStart bEnd evs' (some row1) =
        some (sortByCreated ((eventsInBucket site bStart bEnd evs').filter
          fun e => wt < e.created_at)) := by
      simp only [selectedEvents, hwid, hlook']
    simp only [processBucketTx, hsel] at hrun
    by_cases hp : sortByCreated ((eventsInBucket site bStart bEnd evs').filter
        fun e => wt < e.created_at) = []
    · rw [dif_pos hp] at hrun
      injection hrun with hrun
      refine ⟨wid, wt, ?_, hlook', hle⟩
      rw [← hrun]
      exact hwid
    · rw [dif_neg hp] at hrun
      injection hrun with hrun
      have hLfil := mem_sortByCreated.mp (List.getLast_mem hp)
      have hLbucket := (List.mem_filter.mp hLfil).1
      have hLwt : wt < ((sortByCreated ((eventsInBucket site bStart bEnd evs').filter
          fun e => wt < e.created_at)).getLast hp).created_at := by
        have := (List.mem_filter.mp hLfil).2
        simpa using this
      refine ⟨_, _, ?_, lookupCreatedAt_of_mem hnd (mem_eventsInBucket.mp hLbucket).1, ?_⟩
      · rw [← hrun]
        simp
      · omega

/-- C10: once a row has a watermark resolving to timestamp `wt0`, every
selection made by this or any later run keeps only events whose `created_at`
is strictly greater than the current watermark timestamp (which never drops
below `wt0`); consequently an event whose `created_at` exactly equals `wt0`
is never selected — hence never added to `pageview_count` — by any
subsequent run. -/
theorem watermark_strict_skips_equal_timestamp (site bStart bEnd : Nat)
    (evs0 : List PageView) (row0 : StatsRow) (wid0 wt0 : Nat) (e : PageView)
    (h0 : row0.last_processed_pageview_id = some wid0)
    (hl0 : lookupCreatedAt evs0 wid0 = some wt0)
    (he : e.created_at = wt0) :
    ∀ evs row, Reachable site bStart bEnd evs0 row0 evs row →
      ∀ sel, selectedEvents site bStart bEnd evs (some row) = some sel →
        (∀ x ∈ sel, ∃ wid wt, row.last_processed_pageview_id = some wid ∧
            lookupCreatedAt evs wid = some wt ∧ wt < x.created_at) ∧
        e ∉ sel := by
  intro evs row hr sel hselEq
  obtain ⟨wid, wt, hwid, hlook, hle⟩ :=
    reachable_watermark_mono site bStart bEnd evs0 row0 wid0 wt0 h0 hl0 evs row hr
  simp only [selectedEvents, hwid, hlook] at hselEq
  injection hselEq with hselEq
  subst hselEq
  constructor
  · intro x hx
    have hmem := (List.mem_filter.mp (mem_sortByCreated.mp hx)).2
    exact ⟨wid, wt, hwid, hlook, by simpa using hmem⟩
  · intro hmem
    have hgt := (List.mem_filter.mp (mem_sortByCreated.mp hmem)).2
    simp only [decide_eq_true_eq] at hgt
    omega

/-- Witness for C10 at a reachable state: an event with `created_at` equal
to the watermark timestamp is not in the (empty) selection. -/
theorem watermark_strict_skips_equal_timestamp_witness :
    (∀ x ∈ ([] : List PageView),
        ∃ wid wt,
          ({ pageview_count := 1, unique_session_count := 0,
             last_processed_pageview_id := some 1 } : StatsRow).last_processed_pageview_id =
              some wid ∧
          lookupCreatedAt [⟨1, 0, 5, none⟩] wid = some wt ∧ wt < x.created_at) ∧
    (⟨2, 0, 5, none⟩ : PageView) ∉ ([] : List PageView) :=
  watermark_strict_skips_equal_timestamp 0 0 100 [⟨1, 0, 5, none⟩]
    { pageview_count := 1, unique_session_count := 0, last_processed_pageview_id := some 1 }
    1 5 ⟨2, 0, 5, none⟩ rfl (by decide) rfl
    [⟨1, 0, 5, none⟩]
    { pageview_count := 1, unique_session_count := 0, last_processed_pageview_id := some 1 }
    Reachable.refl [] (by decide)

/-! ### The per-window loop with per-bucket exception handling -/

/-- One bucket attempt inside the window loop, with the `try/except` around
`transaction.atomic()`: on a transient store fault at this bucket (`fault b`)
or an exception inside the transaction, the row is left unchanged (the
transaction rolls back), nothing is counted, and the loop continues.
Returns the bucket's new row state and its `(created, updated, processed)`
contribution. -/
def bucketStep (site width : Nat) (evs : List PageView) (fault : Nat → Bool)
    (st : Option StatsRow) (b : Nat) : Option StatsRow × Nat × Nat × Nat :=
  if fault b then (st, 0, 0, 0)
  else
    match processBucketTx site b (b + width) evs st with
    | none => (st, 0, 0, 0)
    | some o => (some o.row, (if o.wasCreated then 1 else 0),
        (if o.wasUpdated then 1 else 0), o.processed)

/-- The `while current_hour <= end_hour` / `while current_date <= end_date`
loop of `_process_site_hours` / `_process_site_days`: attempts every bucket
of the window in order, accumulating `(created, updated, processed)` and
continuing past per-bucket failures.  `store` maps a bucket start to its
persisted row, if any. -/
def processSiteWindow (site width : Nat) (evs : List PageView) (fault : Nat → Bool) :
    (Nat → Option StatsRow) → List Nat →
      (Nat → Option StatsRow) × Nat × Nat × Nat
  | store, [] => (store, 0, 0, 0)
  | store, b :: rest =>
    let r := bucketStep site width evs fault (store b) b
    let out := processSiteWindow site width evs fault
      (fun x => if x = b then r.1 else store x) rest
    (out.1, r.2.1 + out.2.1, r.2.2.1 + out.2.2.1, r.2.2.2 + out.2.2.2)

/-- C8: one bucket's failure is isolated.  Every bucket of the window ends in
exactly the state of its own attempt (a faulted bucket's row is unchanged,
every other bucket is still fully processed), buckets outside the window are
untouched, and the returned `(created, updated, processed)` totals are the
sums of the per-bucket contributions of the attempts that succeeded. -/
theorem per_bucket_failure_isolated (site width : Nat) (evs : List PageView)
    (fault : Nat → Bool) :
    ∀ (buckets : List Nat) (store : Nat → Option StatsRow), buckets.Nodup →
      (∀ b ∈ buckets,
        (processSiteWindow site width evs fault store buckets).1 b =
          (bucketStep site width evs fault (store b) b).1) ∧
      (∀ b, b ∉ buckets →
        (processSiteWindow site width evs fault store buckets).1 b = store b) ∧
      (processSiteWindow site width evs fault store buckets).2.1 =
        (buckets.map fun b => (bucketStep site width evs fault (store b) b).2.1).sum ∧
      (processSiteWindow site width evs fault store buckets).2.2.1 =
        (buckets.map fun b => (bucketStep site width evs fault (store b) b).2.2.1).sum ∧
      (processSiteWindow site width evs fault store buckets).2.2.2 =
        (buckets.map fun b => (bucketStep site width evs fault (store b) b).2.2.2).sum := by
  intro buckets
  induction buckets with
  | nil =>
    intro store _
    refine ⟨by simp, ?_, by simp [processSiteWindow], by simp [processSiteWindow],
      by simp [processSiteWindow]⟩
    intro b _
    simp [processSiteWindow]
  | cons b rest ih =>
    intro store hnd
    have hbnotin : b ∉ rest := (List.nodup_cons.mp hnd).1
    have hndr : rest.Nodup := (List.nodup_cons.mp hnd).2
    obtain ⟨ih1, ih2, ih3, ih4, ih5⟩ :=
      ih (fun x => if x = b then (bucketStep site width evs fault (store b) b).1 else store x)
        hndr
    have hstore_same : ∀ b' ∈ rest,
        (if b' = b then (bucketStep site width evs fault (store b) b).1 else store b') =
          store b' := by
      intro b' hb'
      rw [if_neg]
      intro hcontra
      exact hbnotin (hcontra ▸ hb')
    refine ⟨?_, ?_, ?_, ?_, ?_⟩
    · intro b' hb'
      rcases List.mem_cons.mp hb' with rfl | hb'r
      · simp only [processSiteWindow]
        rw [ih2 b' hbnotin]
        simp
      · simp only [processSiteWindow]
        rw [ih1 b' hb'r, hstore_same b' hb'r]
    · intro b' hb'
      have hb'b : b' ≠ b := fun hcontra => hb' (hcontra ▸ List.mem_cons_self _ _)
      have hb'r : b' ∉ rest := fun hcontra => hb' (List.mem_cons_of_mem _ hcontra)
      simp only [processSiteWindow]
      rw [ih2 b' hb'r, if_neg hb'b]
    · simp only [processSiteWindow, List.map_cons, List.sum_cons]
      rw [ih3, List.map_congr_left (fun b' hb' => by rw [hstore_same b' hb'])]
    · simp only [processSiteWindow, List.map_cons, List.sum_cons]
      rw [ih4, List.map_congr_left (fun b' hb' => by rw [hstore_same b' hb'])]
    · simp only [processSiteWindow, List.map_cons, List.sum_cons]
      rw [ih5, List.map_congr_left (fun b' hb' => by rw [hstore_same b' hb'])]

/-- Witness for C8: a two-bucket window whose first bucket hits a transient
fault; the totals still report the second bucket's contribution. -/
theorem per_bucket_failure_isolated_witness :
    (processSiteWindow 7 3600 [⟨1, 7, 100, some 10⟩] (fun b => b == 0) (fun _ => none)
        [0, 3600]).2.1 =
      ([0, 3600].map fun b => (bucketStep 7 3600 [⟨1, 7, 100, some 10⟩] (fun b => b == 0)
        ((fun _ => (none : Option StatsRow)) b) b).2.1).sum :=
  (per_bucket_failure_isolated 7 3600 [⟨1, 7, 100, some 10⟩] (fun b => b == 0)
    [0, 3600] (fun _ => none) (by decide)).2.2.1

/-! ### `Command.handle`: argument validation before any bucket work -/

/-- A `--start` / `--end` command-line argument: absent, present but
malformed (`datetime.fromisoformat` raises), or present and parsing to a
time. -/
inductive TimeArg where
  | absent
  | malformed
  | valid (t : Nat)
  deriving Repr, DecidableEq

/-- What a `handle` invocation reports to the caller: the early error writes
(`Invalid --start / --end`, `Site not found`) or the completion summary
counts. -/
inductive HandleResult where
  | invalidInput
  | siteNotFound
  | completed (created updated processed : Nat)
  deriving Repr, DecidableEq

/-- `_truncate_to_hour` (and the day analogue): truncate a time down to its
bucket boundary. -/
def truncToBucket (width t : Nat) : Nat := t / width * width

/-- The bucket starts visited by the `while current <= end` loop, from the
truncated start to the truncated end inclusive. -/
def bucketList (width startT endT : Nat) : List Nat :=
  if truncToBucket width startT ≤ truncToBucket width endT then
    (List.range ((truncToBucket width endT - truncToBucket width startT) / width + 1)).map
      (fun i => truncToBucket width startT + width * i)
  else []

/-- The `for site in sites_query` loop: run the window for each site in turn,
summing the per-site counts.  `stores` maps a site to its bucket-row table. -/
def processSites (width : Nat) (evs : List PageView) (fault : Nat → Bool)
    (buckets : List Nat) :
    (Nat → Nat → Option StatsRow) → List Nat →
      (Nat → Nat → Option StatsRow) × Nat × Nat × Nat
  | stores, [] => (stores, 0, 0, 0)
  | stores, s :: rest =>
    let r := processSiteWindow s width evs fault (stores s) buckets
    let out := processSites width evs fault buckets
      (fun x => if x = s then r.1 else stores x) rest
    (out.1, r.2.1 + out.2.1, r.2.2.1 + out.2.2.1, r.2.2.2 + out.2.2.2)

/-- `Command.handle` of the aggregation commands: parse the explicit
`--start`/`--end` arguments (an exception aborts with an error before any
site or bucket is touched), fill in defaults from the `--hours`/`--days`
span and the current time, resolve the optional `--site` filter (an unknown
site aborts with an error), then process every selected site's window. -/
def handleAgg (width span nowT : Nat) (startArg endArg : TimeArg)
    (siteArg : Option Nat) (sites : List Nat) (evs : List PageView)
    (fault : Nat → Bool) (stores : Nat → Nat → Option StatsRow) :
    HandleResult × (Nat → Nat → Option StatsRow) :=
  if startArg = TimeArg.malformed ∨ endArg = TimeArg.malformed then
    (HandleResult.invalidInput, stores)
  else
    let range : Nat × Nat :=
      match startArg, endArg with
      | TimeArg.valid s, TimeArg.valid e => (s, e)
      | TimeArg.valid s, _ => (s, s + span)
      | _, TimeArg.valid e => (e - span, e)
      | _, _ => (nowT - span, nowT)
    match siteArg with
    | some s =>
      if s ∈ sites then
        let out := processSites width evs fault (bucketList width range.1 range.2) stores [s]
        (HandleResult.completed out.2.1 out.2.2.1 out.2.2.2, out.1)
      else (HandleResult.siteNotFound, stores)
    | none =>
      let out := processSites width evs fault (bucketList width range.1 range.2) stores sites
      (HandleResult.completed out.2.1 out.2.2.1 out.2.2.2, out.1)

/-- C9: a malformed explicit `--start`/`--end`, or an unknown `--site`,
makes `handle` surface the error immediately: the returned store is the
input store untouched (no aggregate row created or updated) and no counts
are produced. -/
theorem invalid_input_no_partial_work (width span nowT : Nat) (startArg endArg : TimeArg)
    (siteArg : Option Nat) (sites : List Nat) (evs : List PageView)
    (fault : Nat → Bool) (stores : Nat → Nat → Option StatsRow) :
    (startArg = TimeArg.malformed ∨ endArg = TimeArg.malformed →
      handleAgg width span nowT startArg endArg siteArg sites evs fault stores =
        (HandleResult.invalidInput, stores)) ∧
    (∀ s, ¬(startArg = TimeArg.malformed ∨ endArg = TimeArg.malformed) →
      siteArg = some s → s ∉ sites →
      handleAgg width span nowT startArg endArg siteArg sites evs fault stores =
        (HandleResult.siteNotFound, stores)) := by
  constructor
  · intro h
    simp [handleAgg, h]
  · intro s hok hsa hs
    subst hsa
    simp [handleAgg, hok, hs]

/-- Witness for C9: a malformed `--start` and an unknown `--site`, each
rejected with the store untouched. -/
theorem invalid_input_no_partial_work_witness :
    (handleAgg 3600 86400 990000 TimeArg.malformed TimeArg.absent none [7]
        [⟨1, 7, 100, some 10⟩] (fun _ => false) (fun _ _ => none) =
      (HandleResult.invalidInput, fun _ _ => none)) ∧
    (handleAgg 3600 86400 990000 TimeArg.absent TimeArg.absent (some 5) [7]
        [⟨1, 7, 100, some 10⟩] (fun _ => false) (fun _ _ => none) =
      (HandleResult.siteNotFound, fun _ _ => none)) :=
  ⟨(invalid_input_no_partial_work 3600 86400 990000 TimeArg.malformed TimeArg.absent none [7]
      [⟨1, 7, 100, some 10⟩] (fun _ => false) (fun _ _ => none)).1 (Or.inl rfl),
   (invalid_input_no_partial_work 3600 86400 990000 TimeArg.absent TimeArg.absent (some 5) [7]
      [⟨1, 7, 100, some 10⟩] (fun _ => false) (fun _ _ => none)).2 5 (by decide) rfl
      (by decide)⟩

/-! ### Gap scanner (`queue_backfill_missing_days.py`) -/

/-- Calendar days are day numbers.  `missingDays existing startD endD` is the
`while current_date <= end_date` scan of the backfill command's `handle`:
every day of the window `[startD, endD]` with no `DailyPageViewStats` row. -/
def missingDays (existingDays : List Nat) (startD endD : Nat) : List Nat :=
  (List.range' startD (endD + 1 - startD)).filter fun d => d ∉ existingDays

/-- The sweep inside `_group_consecutive_days` after sorting: extend the
current `(range_start, range_end)` while the next day is exactly
`range_end + 1`, otherwise close the range and start a new one; the final
range is appended. -/
def groupGo (rs re : Nat) : List Nat → List (Nat × Nat)
  | [] => [(rs, re)]
  | d :: rest =>
    if d = re + 1 then groupGo rs d rest
    else (rs, re) :: groupGo d d rest

/-- `Command._group_consecutive_days`: sort the days and merge consecutive
runs into `(start_date, end_date)` ranges. -/
def group_consecutive_days (days : List Nat) : List (Nat × Nat) :=
  match days.insertionSort (· ≤ ·) with
  | [] => []
  | d :: rest => groupGo d d rest

/-- The calendar days covered by a list of day ranges. -/
def coveredDays (ranges : List (Nat × Nat)) : List Nat :=
  ranges.flatMap fun r => List.range' r.1 (r.2 + 1 - r.1)

/-- `FindMissingDays`: the ranges the backfill command enqueues for one site,
given the days that already have an aggregate row. -/
def findMissingDayRanges (existingDays : List Nat) (startD endD : Nat) : List (Nat × Nat) :=
  group_consecutive_days (missingDays existingDays startD endD)

lemma coveredDays_cons (r : Nat × Nat) (l : List (Nat × Nat)) :
    coveredDays (r :: l) = List.range' r.1 (r.2 + 1 - r.1) ++ coveredDays l := rfl

lemma groupGo_covered :
    ∀ (rest : List Nat) (rs re : Nat), rs ≤ re →
      (∀ d ∈ rest, re < d) → rest.Pairwise (· < ·) →
      coveredDays (groupGo rs re rest) = List.range' rs (re + 1 - rs) ++ rest := by
  intro rest
  induction rest with
  | nil =>
    intro rs re _ _ _
    simp [groupGo, coveredDays]
  | cons d rest ih =>
    intro rs re hle hgt hp
    have hd : re < d := hgt d (List.mem_cons_self _ _)
    have hrest_gt : ∀ d' ∈ rest, d < d' := fun d' hd' => (List.pairwise_cons.mp hp).1 d' hd'
    have hrest_p := (List.pairwise_cons.mp hp).2
    by_cases hdc : d = re + 1
    · rw [groupGo, if_pos hdc,
        ih rs d (by omega) (fun d' hd' => by have := hrest_gt d' hd'; omega) hrest_p]
      have h1 : d + 1 - rs = (re + 1 - rs) + 1 := by omega
      have h2 : rs + 1 * (re + 1 - rs) = d := by omega
      rw [h1, List.range'_concat, h2, List.append_assoc, List.singleton_append]
    · rw [groupGo, if_neg hdc, coveredDays_cons,
        ih d d (Nat.le_refl d) hrest_gt hrest_p]
      have h1 : d + 1 - d = 1 := by omega
      rw [h1, List.range'_one, List.singleton_append]

lemma groupGo_ranges :
    ∀ (rest : List Nat) (rs re : Nat), rs ≤ re →
      (∀ d ∈ rest, re < d) → rest.Pairwise (· < ·) →
      (∀ r ∈ groupGo rs re rest, rs ≤ r.1 ∧ r.1 ≤ r.2) ∧
      (groupGo rs re rest).Pairwise (fun r1 r2 => r1.2 + 1 < r2.1) := by
  intro rest
  induction rest with
  | nil =>
    intro rs re hle _ _
    refine ⟨?_, by simp [groupGo]⟩
    intro r hr
    simp only [groupGo, List.mem_singleton] at hr
    subst hr
    exact ⟨Nat.le_refl _, hle⟩
  | cons d rest ih =>
    intro rs re hle hgt hp
    have hd : re < d := hgt d (List.mem_cons_self _ _)
    have hrest_gt : ∀ d' ∈ rest, d < d' := fun d' hd' => (List.pairwise_cons.mp hp).1 d' hd'
    have hrest_p := (List.pairwise_cons.mp hp).2
    by_cases hdc : d = re + 1
    · rw [groupGo, if_pos hdc]
      obtain ⟨h1, h2⟩ :=
        ih rs d (by omega) (fun d' hd' => by have := hrest_gt d' hd'; omega) hrest_p
      exact ⟨h1, h2⟩
    · rw [groupGo, if_neg hdc]
      obtain ⟨h1, h2⟩ := ih d d (Nat.le_refl d) hrest_gt hrest_p
      constructor
      · intro r hr
        rcases List.mem_cons.mp hr with rfl | hr2
        · exact ⟨Nat.le_refl _, hle⟩
        · have := h1 r hr2
          exact ⟨by omega, this.2⟩
      · rw [List.pairwise_cons]
        refine ⟨?_, h2⟩
        intro r hr
        have hr1 := (h1 r hr).1
        show re + 1 < r.1
        omega

/-- The grouping characterised on an already strictly-sorted input. -/
lemma group_sorted_spec (days : List Nat) (hs : days.Pairwise (· < ·)) :
    coveredDays (group_consecutive_days days) = days ∧
    (∀ r ∈ group_consecutive_days days, r.1 ≤ r.2) ∧
    (group_consecutive_days days).Pairwise (fun r1 r2 => r1.2 + 1 < r2.1) := by
  have hsorted : days.insertionSort (· ≤ ·) = days :=
    List.Sorted.insertionSort_eq (hs.imp le_of_lt)
  unfold group_consecutive_days
  rw [hsorted]
  cases days with
  | nil => exact ⟨rfl, by simp, by simp⟩
  | cons d rest =>
    have hgt : ∀ d' ∈ rest, d < d' := fun d' hd' => (List.pairwise_cons.mp hs).1 d' hd'
    have hrp := (List.pairwise_cons.mp hs).2
    refine ⟨?_, fun r hr => ((groupGo_ranges rest d d (Nat.le_refl d) hgt hrp).1 r hr).2,
      (groupGo_ranges rest d d (Nat.le_refl d) hgt hrp).2⟩
    rw [groupGo_covered rest d d (Nat.le_refl d) hgt hrp]
    have h1 : d + 1 - d = 1 := by omega
    rw [h1, List.range'_one, List.singleton_append]

/-- C5: on any list of distinct missing days, `_group_consecutive_days`
returns maximal runs of consecutive present days — every input day is
covered exactly once, every day inside a returned range is an input day,
and consecutive ranges are separated by at least one absent day (so they
are in ascending order and cannot be merged further); in particular
{Jan 1, Jan 2, Jan 3, Jan 5} (days 1,2,3,5) yields [(1,3),(5,5)]. -/
theorem group_consecutive_days_merges :
    (∀ days : List Nat, days.Nodup →
      (coveredDays (group_consecutive_days days)).Perm days ∧
      (∀ r ∈ group_consecutive_days days, r.1 ≤ r.2 ∧
        ∀ d, r.1 ≤ d → d ≤ r.2 → d ∈ days) ∧
      (group_consecutive_days days).Pairwise (fun r1 r2 => r1.2 + 1 < r2.1)) ∧
    group_consecutive_days [1, 2, 3, 5] = [(1, 3), (5, 5)] := by
  constructor
  · intro days hnd
    have hperm := List.perm_insertionSort (· ≤ ·) days
    have hsorted_lt : (days.insertionSort (· ≤ ·)).Pairwise (· < ·) :=
      List.Sorted.lt_of_le (List.sorted_insertionSort _ days) (hperm.nodup_iff.mpr hnd)
    have hidem : group_consecutive_days days =
        group_consecutive_days (days.insertionSort (· ≤ ·)) := by
      unfold group_consecutive_days
      rw [List.Sorted.insertionSort_eq (List.sorted_insertionSort _ days)]
    obtain ⟨hcov, hr, hpw⟩ := group_sorted_spec (days.insertionSort (· ≤ ·)) hsorted_lt
    refine ⟨?_, ?_, ?_⟩
    · rw [hidem, hcov]
      exact hperm
    · intro r hrm
      rw [hidem] at hrm
      refine ⟨hr r hrm, ?_⟩
      intro d h1 h2
      have hdcov : d ∈ coveredDays (group_consecutive_days (days.insertionSort (· ≤ ·))) := by
        rw [coveredDays, List.mem_flatMap]
        refine ⟨r, hrm, ?_⟩
        rw [List.mem_range'_1]
        omega
      rw [hcov] at hdcov
      exact hperm.mem_iff.mp hdcov
    · rw [hidem]
      exact hpw
  · decide

/-- Witness for C5: the Nodup hypothesis holds on days {1,2,3,5} and the
returned ranges cover exactly those days. -/
theorem group_consecutive_days_merges_witness :
    (coveredDays (group_consecutive_days [1, 2, 3, 5])).Perm [1, 2, 3, 5] ∧
    coveredDays (group_consecutive_days [1, 2, 3, 5]) = [1, 2, 3, 5] :=
  ⟨(group_consecutive_days_merges.1 [1, 2, 3, 5] (by decide)).1, by decide⟩

lemma mem_missingDays {existingDays : List Nat} {startD endD d : Nat} :
    d ∈ missingDays existingDays startD endD ↔
      startD ≤ d ∧ d ≤ endD ∧ d ∉ existingDays := by
  simp only [missingDays, List.mem_filter, List.mem_range'_1, decide_eq_true_eq]
  constructor
  · rintro ⟨⟨h1, h2⟩, h3⟩
    exact ⟨h1, by omega, h3⟩
  · rintro ⟨h1, h2, h3⟩
    exact ⟨⟨h1, by omega⟩, h3⟩

lemma missingDays_sorted (existingDays : List Nat) (startD endD : Nat) :
    (missingDays existingDays startD endD).Pairwise (· < ·) :=
  List.Pairwise.filter _ (List.pairwise_lt_range' _ _)

/-- C4: for every site window, the days covered by `FindMissingDays` are
disjoint from the days that already have a daily aggregate row, together
they are exactly the window's calendar days, and the returned ranges are
well-formed, non-overlapping and in ascending time order. -/
theorem gap_detection_complete (existingDays : List Nat) (startD endD : Nat) :
    (∀ d ∈ coveredDays (findMissingDayRanges existingDays startD endD),
        d ∉ existingDays) ∧
    (∀ d, startD ≤ d → d ≤ endD →
        d ∈ coveredDays (findMissingDayRanges existingDays startD endD) ∨
        d ∈ existingDays) ∧
    (∀ d ∈ coveredDays (findMissingDayRanges existingDays startD endD),
        startD ≤ d ∧ d ≤ endD) ∧
    (∀ r ∈ findMissingDayRanges existingDays startD endD, r.1 ≤ r.2) ∧
    (findMissingDayRanges existingDays startD endD).Pairwise
      (fun r1 r2 => r1.2 < r2.1) := by
  obtain ⟨hcov, hr, hpw⟩ :=
    group_sorted_spec _ (missingDays_sorted existingDays startD endD)
  refine ⟨?_, ?_, ?_, hr, hpw.imp (fun h => by omega)⟩
  · intro d hd
    have hmem : d ∈ missingDays existingDays startD endD := by
      rw [← hcov]
      exact hd
    exact (mem_missingDays.mp hmem).2.2
  · intro d h1 h2
    by_cases hex : d ∈ existingDays
    · exact Or.inr hex
    · left
      show d ∈ coveredDays (group_consecutive_days (missingDays existingDays startD endD))
      rw [hcov]
      exact mem_missingDays.mpr ⟨h1, h2, hex⟩
  · intro d hd
    have hmem : d ∈ missingDays existingDays startD endD := by
      rw [← hcov]
      exact hd
    exact ⟨(mem_missingDays.mp hmem).1, (mem_missingDays.mp hmem).2.1⟩

/-- Witness for C4 on a concrete window: day 6 of window [0,10] with a row
only for day 5 is accounted for by the scanner's output or the row set. -/
theorem gap_detection_complete_witness :
    6 ∈ coveredDays (findMissingDayRanges [5] 0 10) ∨ 6 ∈ ([5] : List Nat) :=
  (gap_detection_complete [5] 0 10).2.1 6 (by decide) (by decide)

/-- C7: a bucket of the requested window with zero events and no existing
row still gets a zero-count row, reported in the `created` count; and once a
day has a row, a subsequent `FindMissingDays` over a window containing it no
longer reports it. -/
theorem zero_event_day_row_then_not_missing (site dayD startD endD : Nat)
    (evs : List PageView) (existingDays : List Nat)
    (hempty : eventsInBucket site (dayD * 86400) ((dayD + 1) * 86400) evs = []) :
    processBucketTx site (dayD * 86400) ((dayD + 1) * 86400) evs none =
      some { row := emptyRow, wasCreated := true, wasUpdated := false, processed := 0 } ∧
    (dayD ∈ existingDays →
      dayD ∉ coveredDays (findMissingDayRanges existingDays startD endD)) := by
  constructor
  · simp only [processBucketTx, selectedEvents, hempty, Option.getD_none, Option.isNone_none]
    rfl
  · intro hex hcontra
    obtain ⟨hcov, _, _⟩ :=
      group_sorted_spec _ (missingDays_sorted existingDays startD endD)
    have hmem : dayD ∈ missingDays existingDays startD endD := by
      rw [← hcov]
      exact hcontra
    exact (mem_missingDays.mp hmem).2.2 hex

/-- Witness for C7: an empty day bucket (the only event lies outside it)
creates the zero row, and a day that has a row is absent from the gap
scanner's output. -/
theorem zero_event_day_row_then_not_missing_witness :
    (processBucketTx 7 (5 * 86400) (6 * 86400) [⟨1, 7, 100, some 10⟩] none =
      some { row := emptyRow, wasCreated := true, wasUpdated := false, processed := 0 }) ∧
    (5 : Nat) ∉ coveredDays (findMissingDayRanges [5] 0 10) :=
  ⟨(zero_event_day_row_then_not_missing 7 5 0 10 [⟨1, 7, 100, some 10⟩] [5] (by decide)).1,
   (zero_event_day_row_then_not_missing 7 5 0 10 [⟨1, 7, 100, some 10⟩] [5] (by decide)).2
     (by decide)⟩

/-! ### Session key derivation (`Session.generate_session_id`) -/

/-- A UTC-aware wall-clock timestamp (`datetime`). -/
structure DateTime where
  year : Nat
  month : Nat
  day : Nat
  hour : Nat
  minute : Nat
  second : Nat
  microsecond : Nat
  deriving Repr, DecidableEq

/-- `timestamp.replace(minute=(minutes // 30) * 30, second=0, microsecond=0)`:
round down to the enclosing 30-minute window. -/
def roundToWindow (ts : DateTime) : DateTime :=
  { ts with minute := ts.minute / 30 * 30, second := 0, microsecond := 0 }

/-- One decimal digit. -/
def digitChar (n : Nat) : Char := Char.ofNat (48 + n % 10)

def pad2 (n : Nat) : String := String.mk [digitChar (n / 10), digitChar n]

def pad4 (n : Nat) : String :=
  String.mk [digitChar (n / 1000), digitChar (n / 100), digitChar (n / 10), digitChar n]

def pad6 (n : Nat) : String :=
  String.mk [digitChar (n / 100000), digitChar (n / 10000), digitChar (n / 1000),
    digitChar (n / 100), digitChar (n / 10), digitChar n]

/-- Python `datetime.isoformat()` for a UTC-aware datetime: microseconds are
printed only when non-zero, and the UTC offset prints as `+00:00`. -/
def isoformatUTC (ts : DateTime) : String :=
  pad4 ts.year ++ "-" ++ pad2 ts.month ++ "-" ++ pad2 ts.day ++ "T" ++
    pad2 ts.hour ++ ":" ++ pad2 ts.minute ++ ":" ++ pad2 ts.second ++
    (if ts.microsecond = 0 then "" else "." ++ pad6 ts.microsecond) ++ "+00:00"

/-- UTF-8 encoding of one code point (`str.encode()` works per code point). -/
def utf8Encode (c : Nat) : List Nat :=
  if c < 128 then [c]
  else if c < 2048 then [192 + c / 64, 128 + c % 64]
  else if c < 65536 then [224 + c / 4096, 128 + c / 64 % 64, 128 + c % 64]
  else [240 + c / 262144, 128 + c / 4096 % 64, 128 + c / 64 % 64, 128 + c % 64]

/-- `session_string.encode()`: the UTF-8 bytes of a string. -/
def strBytes (s : String) : List Nat :=
  (s.toList.map Char.toNat).flatMap utf8Encode

/-! SHA-256 (`hashlib.sha256`), RFC 6234, over byte lists; words are `Nat`
reduced mod `2 ^ 32`. -/

/-- 32-bit truncation. -/
def w32 (n : Nat) : Nat := n % 4294967296

/-- Right rotation of a 32-bit word by `n`. -/
def rotr (n x : Nat) : Nat := x / 2 ^ n + x % 2 ^ n * 2 ^ (32 - n)

/-- Logical right shift by `n`. -/
def shr (n x : Nat) : Nat := x / 2 ^ n

def bigSigma0 (x : Nat) : Nat := rotr 2 x ^^^ rotr 13 x ^^^ rotr 22 x

def bigSigma1 (x : Nat) : Nat := rotr 6 x ^^^ rotr 11 x ^^^ rotr 25 x

def smallSigma0 (x : Nat) : Nat := rotr 7 x ^^^ rotr 18 x ^^^ shr 3 x

def smallSigma1 (x : Nat) : Nat := rotr 17 x ^^^ rotr 19 x ^^^ shr 10 x

/-- `Ch(x,y,z)`; the complement of a 32-bit `x` is `2^32 - 1 - x`. -/
def chVal (x y z : Nat) : Nat := (x &&& y) ^^^ ((4294967295 - x) &&& z)

def majVal (x y z : Nat) : Nat := (x &&& y) ^^^ (x &&& z) ^^^ (y &&& z)

/-- The 64 SHA-256 round constants. -/
def sha256K : List Nat :=
  [1116352408, 1899447441, 3049323471, 3921009573, 961987163, 1508970993,
   2453635748, 2870763221, 3624381080, 310598401, 607225278, 1426881987,
   1925078388, 2162078206, 2614888103, 3248222580, 3835390401, 4022224774,
   264347078, 604807628, 770255983, 1249150122, 1555081692, 1996064986,
   2554220882, 2821834349, 2952996808, 3210313671, 3336571891, 3584528711,
   113926993, 338241895, 666307205, 773529912, 1294757372, 1396182291,
   1695183700, 1986661051, 2177026350, 2456956037, 2730485921, 2820302411,
   3259730800, 3345764771, 3516065817, 3600352804, 4094571909, 275423344,
   430227734, 506948616, 659060556, 883997877, 958139571, 1322822218,
   1537002063, 1747873779, 1955562222, 2024104815, 2227730452, 2361852424,
   2428436474, 2756734187, 3204031479, 3329325298]

/-- SHA-256 padding: append `0x80`, zeros up to 56 mod 64, then the 8-byte
big-endian bit length. -/
def sha256Pad (msg : List Nat) : List Nat :=
  let len := msg.length
  let zeros := (119 - len % 64) % 64
  msg ++ [128] ++ List.replicate zeros 0 ++
    ((List.range 8).map fun i => len * 8 / 2 ^ (8 * (7 - i)) % 256)

def chunksGo : Nat → List Nat → List (List Nat)
  | 0, _ => []
  | n + 1, l => l.take 64 :: chunksGo n (l.drop 64)

/-- Split a (padded) byte list into 64-byte blocks. -/
def chunks64 (l : List Nat) : List (List Nat) := chunksGo (l.length / 64) l

/-- The first 16 words of the message schedule (big-endian bytes). -/
def initW (block : List Nat) : List Nat :=
  (List.range 16).map fun i =>
    block.getD (4 * i) 0 * 16777216 + block.getD (4 * i + 1) 0 * 65536 +
      block.getD (4 * i + 2) 0 * 256 + block.getD (4 * i + 3) 0

/-- Extend the message schedule by `n` further words. -/
def extendW : Nat → List Nat → List Nat
  | 0, w => w
  | n + 1, w =>
    extendW n (w ++ [w32 (smallSigma1 (w.getD (w.length - 2) 0) + w.getD (w.length - 7) 0 +
      smallSigma0 (w.getD (w.length - 15) 0) + w.getD (w.length - 16) 0)])

structure Sha256State where
  a : Nat
  b : Nat
  c : Nat
  d : Nat
  e : Nat
  f : Nat
  g : Nat
  h : Nat
  deriving Repr, DecidableEq

def sha256Round (st : Sha256State) (wk : Nat × Nat) : Sha256State :=
  let t1 := w32 (st.h + bigSigma1 st.e + chVal st.e st.f st.g + wk.2 + wk.1)
  let t2 := w32 (bigSigma0 st.a + majVal st.a st.b st.c)
  { a := w32 (t1 + t2), b := st.a, c := st.b, d := st.c,
    e := w32 (st.d + t1), f := st.e, g := st.f, h := st.g }

def sha256Block (hs : Sha256State) (block : List Nat) : Sha256State :=
  let w := extendW 48 (initW block)
  let st := (w.zip sha256K).foldl sha256Round hs
  { a := w32 (hs.a + st.a), b := w32 (hs.b + st.b), c := w32 (hs.c + st.c),
    d := w32 (hs.d + st.d), e := w32 (hs.e + st.e), f := w32 (hs.f + st.f),
    g := w32 (hs.g + st.g), h := w32 (hs.h + st.h) }

def sha256IV : Sha256State :=
  { a := 1779033703, b := 3144134277, c := 1013904242, d := 2773480762,
    e := 1359893119, f := 2600822924, g := 528734635, h := 1541459225 }

def hexChar (n : Nat) : Char := Char.ofNat (if n % 16 < 10 then 48 + n % 16 else 87 + n % 16)

def wordHex (n : Nat) : String :=
  String.mk ((List.range 8).map fun i => hexChar (n / 16 ^ (7 - i)))

/-- `hashlib.sha256(bytes).hexdigest()`. -/
def sha256Hex (msg : List Nat) : String :=
  let s := (chunks64 (sha256Pad msg)).foldl sha256Block sha256IV
  wordHex s.a ++ wordHex s.b ++ wordHex s.c ++ wordHex s.d ++
    wordHex s.e ++ wordHex s.f ++ wordHex s.g ++ wordHex s.h

/-- `Session.generate_session_id`: round the timestamp down to its 30-minute
window, build `f"{ip_address}:{user_agent}:{time_bucket.isoformat()}"`, hash
with SHA-256 and hex-encode. -/
def generate_session_id (ip_address user_agent : String) (timestamp : DateTime) : String :=
  sha256Hex (strBytes (ip_address ++ ":" ++ user_agent ++ ":" ++
    isoformatUTC (roundToWindow timestamp)))

set_option maxRecDepth 100000 in
/-- C6: the session key is deterministic in (ip, user agent, 30-minute
window): the timestamp is rounded down to the window (minute ∈ {0, 30},
seconds and sub-seconds zeroed) before `ip:userAgent:windowISO8601` is
SHA-256-hashed and hex-encoded.  10:29:59 rounds to the 10:00 window while
10:30:01 rounds to the 10:30 window, and the two windows' keys differ (the
two SHA-256 digests are computed and compared for a concrete IP and user
agent). -/
theorem session_key_window (ip ua : String) (ts1 ts2 : DateTime) :
    (roundToWindow ts1 = roundToWindow ts2 →
      generate_session_id ip ua ts1 = generate_session_id ip ua ts2) ∧
    ((roundToWindow ts1).minute = ts1.minute / 30 * 30 ∧
      (roundToWindow ts1).second = 0 ∧ (roundToWindow ts1).microsecond = 0) ∧
    (roundToWindow ⟨2024, 1, 15, 10, 29, 59, 0⟩).minute = 0 ∧
    (roundToWindow ⟨2024, 1, 15, 10, 30, 1, 0⟩).minute = 30 ∧
    generate_session_id "203.0.113.7" "Mozilla/5.0" ⟨2024, 1, 15, 10, 29, 59, 0⟩ ≠
      generate_session_id "203.0.113.7" "Mozilla/5.0" ⟨2024, 1, 15, 10, 30, 1, 0⟩ := by
  refine ⟨?_, ⟨rfl, rfl, rfl⟩, rfl, rfl, ?_⟩
  · intro h
    unfold generate_session_id
    rw [h]
  · decide

/-- Witness for C6: two timestamps in the same window produce the same key;
the two boundary timestamps produce different keys. -/
theorem session_key_window_witness :
    generate_session_id "203.0.113.7" "Mozilla/5.0" ⟨2024, 1, 15, 10, 0, 30, 7⟩ =
      generate_session_id "203.0.113.7" "Mozilla/5.0" ⟨2024, 1, 15, 10, 29, 59, 0⟩ ∧
    generate_session_id "203.0.113.7" "Mozilla/5.0" ⟨2024, 1, 15, 10, 29, 59, 0⟩ ≠
      generate_session_id "203.0.113.7" "Mozilla/5.0" ⟨2024, 1, 15, 10, 30, 1, 0⟩ :=
  ⟨(session_key_window "203.0.113.7" "Mozilla/5.0" ⟨2024, 1, 15, 10, 0, 30, 7⟩
      ⟨2024, 1, 15, 10, 29, 59, 0⟩).1 rfl,
   (session_key_window "203.0.113.7" "Mozilla/5.0" ⟨2024, 1, 15, 10, 29, 59, 0⟩
      ⟨2024, 1, 15, 10, 30, 1, 0⟩).2.2.2.2⟩

end SquirrelStats
